import Mathlib

/-!
Verification of the segment scheduler, validation, viewport transform and
audio analysis of the Hydra video editor, shallowly embedded from the
JavaScript sources (SegmentManager, WaveformRenderer, AudioManager,
HydraManager, validateSegmentTimes).

Numeric values that never leave the finite range are modelled as rationals;
where NaN and infinities matter (segment-time validation) JavaScript numbers
are modelled by the type JSNum below.
-/

namespace VideoEditor

/-- A timeline segment, from SegmentManager: `{ startTime, endTime, code }`. -/
structure Segment where
  startTime : ℚ
  endTime : ℚ
  code : String
deriving DecidableEq, Repr

/-- Default segment used with List.getD where the source indexes unchecked. -/
def dfltSegment : Segment := ⟨0, 0, ""⟩

/-- The mutable fields of SegmentManager: the segment list, the stored active
index (`currentSegmentIndex`, -1 meaning none) and the editing index. -/
structure SMState where
  segments : List Segment
  currentSegmentIndex : ℤ
  editingSegmentIndex : ℤ
deriving DecidableEq, Repr

/-- Constructor state: `segments = []`, both indices -1. -/
def SMState.init : SMState := ⟨[], -1, -1⟩

/-- The activity test of `findActiveSegment`:
`currentTime >= segment.startTime && currentTime < segment.endTime`. -/
def isActiveAt (s : Segment) (t : ℚ) : Bool :=
  decide (s.startTime ≤ t) && decide (t < s.endTime)

/-- The scanning loop of `findActiveSegment`, carrying the loop counter:
returns the first index (counting from `k`) whose segment is active at `t`,
and -1 when none is. -/
def findActiveAux (t : ℚ) : List Segment → ℕ → ℤ
  | [], _ => -1
  | s :: rest, k => if isActiveAt s t then (k : ℤ) else findActiveAux t rest (k + 1)

/-- `SegmentManager.findActiveSegment(currentTime)`: scan the list in order,
return the first index whose segment contains `currentTime`, else -1. -/
def findActiveSegment (segs : List Segment) (t : ℚ) : ℤ :=
  findActiveAux t segs 0

/-- `SegmentManager.addSegment(startTime, endTime, code)`: push at the end. -/
def addSegment (m : SMState) (startTime endTime : ℚ) (code : String) : SMState :=
  { m with segments := m.segments ++ [⟨startTime, endTime, code⟩] }

/-- `SegmentManager.updateSegment(index, startTime, endTime, code)`: replace in
place when `index >= 0 && index < segments.length`, otherwise do nothing. -/
def updateSegment (m : SMState) (index : ℤ) (startTime endTime : ℚ)
    (code : String) : SMState :=
  if 0 ≤ index ∧ index < (m.segments.length : ℤ) then
    { m with segments := m.segments.set index.toNat ⟨startTime, endTime, code⟩ }
  else m

/-- `SegmentManager.deleteSegment(index)`: `segments.splice(index, 1)` when
`index >= 0 && index < segments.length`, otherwise do nothing.  Note that the
source touches no other field: `currentSegmentIndex` is left as it was. -/
def deleteSegment (m : SMState) (index : ℤ) : SMState :=
  if 0 ≤ index ∧ index < (m.segments.length : ℤ) then
    { m with segments := m.segments.eraseIdx index.toNat }
  else m

/-- Calls that `updateActiveSegment` makes into the rendering layer:
`executeSegment(index)` running `segments[index].code` through
`hydraManager.executeCode`, and `executeDefaultVisual()`. -/
inductive ExecEvent where
  | segmentExec (index : ℕ) (code : String)
  | defaultVisual
deriving DecidableEq, Repr

/-- What one call of `updateActiveSegment(currentTime)` produces: the state
afterwards, the returned boolean (true when the active segment changed) and
the rendering calls made, in order. -/
structure EvalResult where
  state : SMState
  changed : Bool
  events : List ExecEvent
deriving DecidableEq, Repr

/-- `SegmentManager.updateActiveSegment(currentTime)` together with
`executeSegment` and `executeDefaultVisual`, in the runs where
`hydraManager.executeCode` does not throw.  Source order: compute
`findActiveSegment`; when it differs from the stored index, execute the new
segment when its index is nonnegative, otherwise run the default visual only
when the segment list is empty; then store the new index and return true. -/
def updateActiveSegment (m : SMState) (t : ℚ) : EvalResult :=
  let activeIndex := findActiveSegment m.segments t
  if activeIndex = m.currentSegmentIndex then
    ⟨m, false, []⟩
  else if 0 ≤ activeIndex then
    ⟨{ m with currentSegmentIndex := activeIndex }, true,
      [.segmentExec activeIndex.toNat
        (m.segments.getD activeIndex.toNat dfltSegment).code]⟩
  else if m.segments.length = 0 then
    ⟨{ m with currentSegmentIndex := activeIndex }, true, [.defaultVisual]⟩
  else
    ⟨{ m with currentSegmentIndex := activeIndex }, true, []⟩

/-- `updateActiveSegment` with throwing execution made explicit.  `execOk c`
tells whether `hydraManager.executeCode c` (that is, `new Function(c)()`)
succeeds.  `executeSegment` has no try block and neither does its caller
`updateActiveSegment` nor `HydraVideoEditor.updateActiveSegment` in app.js,
so a throw escapes the whole scheduling step before the line
`this.currentSegmentIndex = activeIndex` runs: the error case leaves the
state as it was and carries the message outward.  `executeDefaultVisual`
wraps its own call in try/catch and swallows the error, so that branch never
throws. -/
def updateActiveSegmentE (execOk : String → Bool) (m : SMState) (t : ℚ) :
    Except String EvalResult :=
  let activeIndex := findActiveSegment m.segments t
  if activeIndex = m.currentSegmentIndex then
    .ok ⟨m, false, []⟩
  else if 0 ≤ activeIndex then
    let code := (m.segments.getD activeIndex.toNat dfltSegment).code
    if execOk code then
      .ok ⟨{ m with currentSegmentIndex := activeIndex }, true,
        [.segmentExec activeIndex.toNat code]⟩
    else
      .error code
  else if m.segments.length = 0 then
    .ok ⟨{ m with currentSegmentIndex := activeIndex }, true, [.defaultVisual]⟩
  else
    .ok ⟨{ m with currentSegmentIndex := activeIndex }, true, []⟩

/-- The serialized record produced by `SegmentManager.export`:
`{ startTime, endTime, code }`. -/
structure SegmentData where
  startTime : ℚ
  endTime : ℚ
  code : String
deriving DecidableEq, Repr

/-- `SegmentManager.export()`: map each segment to a plain record. -/
def exportSegments (m : SMState) : List SegmentData :=
  m.segments.map fun s => ⟨s.startTime, s.endTime, s.code⟩

/-- `SegmentManager.import(segmentData)`: rebuild `this.segments` from the
records, field by field, with no validation. -/
def importSegments (m : SMState) (segmentData : List SegmentData) : SMState :=
  { m with segments := segmentData.map fun s => ⟨s.startTime, s.endTime, s.code⟩ }

/-- A JavaScript number as far as segment-time validation observes it: NaN,
the two infinities, or a finite value. -/
inductive JSNum where
  | nan
  | inf
  | negInf
  | fin (q : ℚ)
deriving DecidableEq, Repr

/-- JavaScript `a < b`: false whenever either side is NaN. -/
def jsLt : JSNum → JSNum → Bool
  | .nan, _ => false
  | _, .nan => false
  | .negInf, .negInf => false
  | .negInf, _ => true
  | _, .negInf => false
  | .inf, _ => false
  | .fin _, .inf => true
  | .fin a, .fin b => decide (a < b)

/-- JavaScript `a <= b`: false whenever either side is NaN. -/
def jsLe : JSNum → JSNum → Bool
  | .nan, _ => false
  | _, .nan => false
  | .negInf, _ => true
  | _, .negInf => false
  | _, .inf => true
  | .inf, _ => false
  | .fin a, .fin b => decide (a ≤ b)

/-- JavaScript `a >= b`, which agrees with `b <= a` (both are false when a
NaN is involved). -/
def jsGe (a b : JSNum) : Bool := jsLe b a

/-- JavaScript `isNaN`. -/
def isNaNum : JSNum → Bool
  | .nan => true
  | _ => false

/-- JavaScript `Number.isFinite`. -/
def isFiniteNum : JSNum → Bool
  | .fin _ => true
  | _ => false

/-- The `{ valid, message }` object returned by `validateSegmentTimes`; the
success branch returns `{ valid: true }`, modelled with an empty message. -/
structure ValidationResult where
  valid : Bool
  message : String
deriving DecidableEq, Repr

/-- `validateSegmentTimes(start, end)` from utils.js, check for check:
`isNaN(start) || isNaN(end)`, then `start >= end`, then `start < 0`. -/
def validateSegmentTimes (start endv : JSNum) : ValidationResult :=
  if isNaNum start || isNaNum endv then
    ⟨false, "Invalid time values"⟩
  else if jsGe start endv then
    ⟨false, "Start time must be less than end time"⟩
  else if jsLt start (.fin 0) then
    ⟨false, "Start time must be non-negative"⟩
  else
    ⟨true, ""⟩

/-- A segment as stored by the validated add path, keeping the JavaScript
number representation of its bounds. -/
structure SegmentJ where
  startTime : JSNum
  endTime : JSNum
  code : String
deriving DecidableEq, Repr

/-- The validated add operation: `addOrUpdateSegment` in app.js runs
`validateSegmentTimes(start, end)` and stops with the message before any
mutation when it fails; otherwise `SegmentManager.addSegment` pushes the new
segment at the end of the list. -/
def addSegmentChecked (segs : List SegmentJ) (start endv : JSNum)
    (code : String) : Except String (List SegmentJ) :=
  let v := validateSegmentTimes start endv
  if v.valid then .ok (segs ++ [⟨start, endv, code⟩]) else .error v.message

/-- The viewport fields of WaveformRenderer: `zoom`, `offset`, `amplitude`. -/
structure ViewportState where
  zoom : ℚ
  offset : ℚ
  amplitude : ℚ
deriving DecidableEq, Repr

/-- WaveformRenderer constructor state. -/
def initViewport : ViewportState := ⟨1, 0, 1⟩

/-- `WaveformRenderer.clampOffset()`:
`offset = Math.max(0, Math.min(offset, 1 - 1/zoom))`. -/
def clampOffset (v : ViewportState) : ViewportState :=
  { v with offset := max 0 (min v.offset (1 - 1 / v.zoom)) }

/-- `WaveformRenderer.zoomIn()` with `ZOOM_FACTOR = 1.2`, `MAX_ZOOM = 20`. -/
def zoomIn (v : ViewportState) : ViewportState :=
  clampOffset { v with zoom := min (v.zoom * (6 / 5)) 20 }

/-- `WaveformRenderer.zoomOut()` with `MIN_ZOOM = 1`. -/
def zoomOut (v : ViewportState) : ViewportState :=
  clampOffset { v with zoom := max (v.zoom / (6 / 5)) 1 }

/-- `WaveformRenderer.resetView()`: `zoom = 1, offset = 0, amplitude = 1`. -/
def resetView (_ : ViewportState) : ViewportState := ⟨1, 0, 1⟩

/-- `WaveformRenderer.pan(deltaX, containerWidth)`:
`offset -= (deltaX/containerWidth)/zoom`, then clamp. -/
def pan (v : ViewportState) (deltaX containerWidth : ℚ) : ViewportState :=
  clampOffset { v with offset := v.offset - deltaX / containerWidth / v.zoom }

/-- The fields of a wheel event that `handleWheel` reads. -/
structure WheelEvent where
  deltaX : ℚ
  deltaY : ℚ
  shiftKey : Bool
  ctrlKey : Bool
  metaKey : Bool
deriving DecidableEq, Repr

/-- `WaveformRenderer.handleWheel(e)` with `AMPLITUDE_FACTOR = 1.05`,
`ZOOM_FACTOR_WHEEL = 1.03`; `canvasWidth` stands for `canvas.offsetWidth`.
Branches in source order: shift → amplitude, ctrl/meta → zoom,
`|deltaY| > |deltaX|` → zoom, otherwise horizontal pan. -/
def handleWheel (v : ViewportState) (e : WheelEvent) (canvasWidth : ℚ) :
    ViewportState :=
  if e.shiftKey then
    let ampDelta : ℚ := if 0 < e.deltaY then 20 / 21 else 21 / 20
    { v with amplitude := max (1 / 10) (min (v.amplitude * ampDelta) 5) }
  else if e.ctrlKey || e.metaKey then
    let zoomDelta : ℚ := if 0 < e.deltaY then 100 / 103 else 103 / 100
    clampOffset { v with zoom := max 1 (min (v.zoom * zoomDelta) 20) }
  else if |e.deltaX| < |e.deltaY| then
    let zoomDelta : ℚ := if 0 < e.deltaY then 100 / 103 else 103 / 100
    clampOffset { v with zoom := max 1 (min (v.zoom * zoomDelta) 20) }
  else
    clampOffset { v with offset := v.offset + e.deltaX / (canvasWidth * 2) / v.zoom }

/-- The public viewport mutations of WaveformRenderer. -/
inductive ViewportMutation where
  | zoomInM
  | zoomOutM
  | panM (deltaX containerWidth : ℚ)
  | wheelM (e : WheelEvent) (canvasWidth : ℚ)
  | resetM
deriving Repr

/-- Dispatch one public mutation. -/
def applyMutation (v : ViewportState) : ViewportMutation → ViewportState
  | .zoomInM => zoomIn v
  | .zoomOutM => zoomOut v
  | .panM d w => pan v d w
  | .wheelM e w => handleWheel v e w
  | .resetM => resetView v

/-- Apply a sequence of public mutations from left to right. -/
def applyMutations (v : ViewportState) (ms : List ViewportMutation) :
    ViewportState :=
  ms.foldl applyMutation v

/-- The viewport invariant of the claim: zoom within `[1, 20]` and offset
within `[0, 1 - 1/zoom]`. -/
def ViewportInv (v : ViewportState) : Prop :=
  1 ≤ v.zoom ∧ v.zoom ≤ 20 ∧ 0 ≤ v.offset ∧ v.offset ≤ 1 - 1 / v.zoom

/-- The global reactive object `window.a` written by
`AudioManager.updateAudioAnalysis`: four band values and the playback time. -/
structure ReactiveSignal where
  fft : List ℚ
  time : ℚ
deriving DecidableEq, Repr

/-- The inner summation loop of `updateAudioAnalysis`:
`for (j = 0; j < samplesPerBand; j++) sum += data[start + j]`, where an
out-of-range read contributes 0 (the loop never reads out of range in the
uses proved below). -/
def bandSum (data : List ℕ) (start : ℕ) : ℕ → ℕ
  | 0 => 0
  | n + 1 => bandSum data start n + data.getD (start + n) 0

/-- The band computation of `AudioManager.updateAudioAnalysis`: with
`bands = 4` and `samplesPerBand = Math.floor(data.length / bands)`, band `i`
gets `(sum / samplesPerBand) / 255`. -/
def computeBands (data : List ℕ) : List ℚ :=
  let samplesPerBand := data.length / 4
  (List.range 4).map fun i =>
    ((bandSum data (i * samplesPerBand) samplesPerBand : ℚ) / samplesPerBand) / 255

/-- One refresh tick of `AudioManager.updateAudioAnalysis` once the analyser
exists: write the four band values into `a.fft` in index order and, when the
playback position is truthy (nonzero), write it into `a.time`. -/
def updateAudioAnalysis (sig : ReactiveSignal) (data : List ℕ)
    (currentTime : ℚ) : ReactiveSignal :=
  { fft := computeBands data
    time := if currentTime ≠ 0 then currentTime else sig.time }

lemma findActiveAux_neg_one (t : ℚ) (l : List Segment) : ∀ k : ℕ,
    findActiveAux t l k = -1 ↔
      ∀ j, j < l.length → isActiveAt (l.getD j dfltSegment) t = false := by
  induction l with
  | nil => intro k; simp [findActiveAux]
  | cons s rest ih =>
    intro k
    cases hA : isActiveAt s t
    · simp only [findActiveAux, hA, Bool.false_eq_true, if_false, ih (k + 1)]
      constructor
      · intro hall j hj
        cases j with
        | zero => simpa using hA
        | succ j => simpa using hall j (by simpa using hj)
      · intro hall j hj
        simpa using hall (j + 1) (by simpa using hj)
    · simp only [findActiveAux, hA, if_true]
      constructor
      · intro hk; omega
      · intro hall
        have h0 := hall 0 (by simp)
        simp [hA] at h0
lemma findActiveAux_coe (t : ℚ) (l : List Segment) : ∀ k i : ℕ,
    findActiveAux t l k = (i : ℤ) →
      k ≤ i ∧ i - k < l.length ∧
        isActiveAt (l.getD (i - k) dfltSegment) t = true ∧
        ∀ j, j < i - k → isActiveAt (l.getD j dfltSegment) t = false := by
  induction l with
  | nil => intro k i h; simp only [findActiveAux] at h; omega
  | cons s rest ih =>
    intro k i h
    cases hA : isActiveAt s t
    · simp only [findActiveAux, hA, Bool.false_eq_true, if_false] at h
      obtain ⟨h1, h2, h3, h4⟩ := ih (k + 1) i h
      refine ⟨by omega, by simp; omega, ?_, ?_⟩
      · have hik : i - k = (i - (k + 1)) + 1 := by omega
        rw [hik, List.getD_cons_succ]; exact h3
      · intro j hj
        cases j with
        | zero => simpa using hA
        | succ j =>
          rw [List.getD_cons_succ]
          exact h4 j (by omega)
    · simp only [findActiveAux, hA, if_true] at h
      have hk : k = i := by omega
      subst hk
      simp [hA]
lemma findActiveAux_shape (t : ℚ) (l : List Segment) : ∀ k : ℕ,
    findActiveAux t l k = -1 ∨ ∃ i : ℕ, findActiveAux t l k = (i : ℤ) := by
  induction l with
  | nil => intro k; left; rfl
  | cons s rest ih =>
    intro k
    cases hA : isActiveAt s t
    · simpa only [findActiveAux, hA, Bool.false_eq_true, if_false] using ih (k + 1)
    · right; exact ⟨k, by simp [findActiveAux, hA]⟩

/-- C1: `findActiveSegment(t)` returns the lowest index whose segment
contains `t` (start inclusive, end exclusive), scanning in current list
order; it returns -1 (the "none" value) exactly when no segment contains
`t`; and on the overlapping list `[(0,10),(5,15)]` the call at time 7
returns index 0. -/
theorem findActiveSegment_lowest_spec (segs : List Segment) (t : ℚ) :
    (∀ i : ℕ, findActiveSegment segs t = (i : ℤ) →
        i < segs.length ∧ isActiveAt (segs.getD i dfltSegment) t = true ∧
          ∀ j, j < i → isActiveAt (segs.getD j dfltSegment) t = false)
    ∧ (findActiveSegment segs t = -1 ↔
        ∀ j, j < segs.length → isActiveAt (segs.getD j dfltSegment) t = false)
    ∧ (findActiveSegment segs t = -1 ∨
        ∃ i : ℕ, findActiveSegment segs t = (i : ℤ))
    ∧ findActiveSegment [⟨0, 10, "A"⟩, ⟨5, 15, "B"⟩] 7 = 0 := by
  refine ⟨?_, findActiveAux_neg_one t segs 0, findActiveAux_shape t segs 0,
    by decide⟩
  intro i h
  obtain ⟨h1, h2, h3, h4⟩ := findActiveAux_coe t segs 0 i h
  simp only [Nat.sub_zero] at h2 h3 h4
  exact ⟨h2, h3, h4⟩

/-- Witness for C1 at the concrete overlapping list. -/
theorem findActiveSegment_lowest_spec_witness :
    0 < ([⟨0, 10, "A"⟩, ⟨5, 15, "B"⟩] : List Segment).length ∧
      isActiveAt (([⟨0, 10, "A"⟩, ⟨5, 15, "B"⟩] : List Segment).getD 0
        dfltSegment) 7 = true :=
  have h := (findActiveSegment_lowest_spec [⟨0, 10, "A"⟩, ⟨5, 15, "B"⟩] 7).1 0
    (by decide)
  ⟨h.1, h.2.1⟩

lemma updateActiveSegment_segments (m : SMState) (t : ℚ) :
    (updateActiveSegment m t).state.segments = m.segments := by
  simp only [updateActiveSegment]
  split_ifs <;> rfl
lemma updateActiveSegment_index (m : SMState) (t : ℚ) :
    (updateActiveSegment m t).state.currentSegmentIndex
      = findActiveSegment m.segments t := by
  simp only [updateActiveSegment]
  split_ifs with h <;> simp [h]
lemma updateActiveSegment_same (m : SMState) (t : ℚ)
    (h : findActiveSegment m.segments t = m.currentSegmentIndex) :
    updateActiveSegment m t = ⟨m, false, []⟩ := by
  simp [updateActiveSegment, h]
lemma updateActiveSegment_events_len (m : SMState) (t : ℚ) :
    (updateActiveSegment m t).events.length ≤ 1 := by
  simp only [updateActiveSegment]
  split_ifs <;> simp

/-- C2: evaluating the same time twice in a row triggers execution at most
once.  The first call makes at most one rendering call; the second call
finds the stored index unchanged, makes no rendering call, reports no
change and leaves the state untouched. -/
theorem updateActiveSegment_idem (m : SMState) (t : ℚ) :
    (updateActiveSegment m t).events.length ≤ 1
    ∧ updateActiveSegment (updateActiveSegment m t).state t
        = ⟨(updateActiveSegment m t).state, false, []⟩ := by
  refine ⟨updateActiveSegment_events_len m t, updateActiveSegment_same _ t ?_⟩
  rw [updateActiveSegment_segments, updateActiveSegment_index]

/-- C3: when the computed active index is none (-1) and differs from the
stored one, evaluation reports a change and stores -1; with an empty segment
list it makes exactly the default-visual call, with a non-empty list it
makes no rendering call at all, leaving the previous output standing. -/
theorem updateActiveSegment_none_spec (m : SMState) (t : ℚ)
    (hnone : findActiveSegment m.segments t = -1)
    (hdiff : m.currentSegmentIndex ≠ -1) :
    (updateActiveSegment m t).changed = true
    ∧ (updateActiveSegment m t).state.currentSegmentIndex = -1
    ∧ (updateActiveSegment m t).state.segments = m.segments
    ∧ (m.segments = [] → (updateActiveSegment m t).events = [.defaultVisual])
    ∧ (m.segments ≠ [] → (updateActiveSegment m t).events = []) := by
  have h1 : ¬ ((-1 : ℤ) = m.currentSegmentIndex) := fun h => hdiff h.symm
  have h2 : ¬ ((0 : ℤ) ≤ -1) := by omega
  simp only [updateActiveSegment, hnone, if_neg h1, if_neg h2]
  by_cases hseg : m.segments = []
  · simp [hseg]
  · simp [hseg, List.length_eq_zero]

/-- Witness for C3: the empty-list case runs the default visual, the gap
case (time 12 past segments [(0,5),(5,10)]) makes no rendering call. -/
theorem updateActiveSegment_none_spec_witness :
    (updateActiveSegment ⟨[], 0, -1⟩ 3).events = [.defaultVisual]
    ∧ (updateActiveSegment ⟨[⟨0, 5, "osc A"⟩, ⟨5, 10, "osc B"⟩], 1, -1⟩ 12).events
        = [] :=
  ⟨(updateActiveSegment_none_spec ⟨[], 0, -1⟩ 3 (by decide)
      (by decide)).2.2.2.1 rfl,
   (updateActiveSegment_none_spec ⟨[⟨0, 5, "osc A"⟩, ⟨5, 10, "osc B"⟩], 1, -1⟩ 12
      (by decide) (by decide)).2.2.2.2 (by decide)⟩

/-- C4 counterexample: deleting the currently active segment does NOT reset
the stored active index to none.  With one segment and stored index 0,
deleting index 0 leaves the stored index at 0, not -1. -/
theorem deleteSegment_active_counterexample :
    ¬ ((deleteSegment ⟨[⟨0, 10, "A"⟩], 0, -1⟩ 0).currentSegmentIndex = -1)
    ∧ (deleteSegment ⟨[⟨0, 10, "A"⟩], 0, -1⟩ 0).segments = [] := by
  exact ⟨by decide, by decide⟩

/-- C4 amended: deleting an in-range index — in particular the currently
active one — removes exactly that segment and leaves every other field,
including the stored active index, unchanged; no rendering call is involved
(deletion is a pure list operation in the source). -/
theorem deleteSegment_active_spec (m : SMState) (i : ℤ) (h0 : 0 ≤ i)
    (hlen : i < (m.segments.length : ℤ)) (hact : m.currentSegmentIndex = i) :
    (deleteSegment m i).segments = m.segments.eraseIdx i.toNat
    ∧ (deleteSegment m i).segments.length = m.segments.length - 1
    ∧ (deleteSegment m i).currentSegmentIndex = m.currentSegmentIndex
    ∧ (deleteSegment m i).editingSegmentIndex = m.editingSegmentIndex := by
  have hcond : 0 ≤ i ∧ i < (m.segments.length : ℤ) := ⟨h0, hlen⟩
  have hd : deleteSegment m i
      = { m with segments := m.segments.eraseIdx i.toNat } := by
    simp [deleteSegment, hcond]
  rw [hd]
  refine ⟨rfl, ?_, rfl, rfl⟩
  show (m.segments.eraseIdx i.toNat).length = m.segments.length - 1
  have hlt : i.toNat < m.segments.length := by omega
  have hlen2 := List.length_eraseIdx_add_one hlt
  omega

/-- Witness for C4 amended at a concrete state. -/
theorem deleteSegment_active_spec_witness :
    (deleteSegment ⟨[⟨0, 10, "A"⟩, ⟨10, 20, "B"⟩], 1, -1⟩ 1).segments
        = [⟨0, 10, "A"⟩]
    ∧ (deleteSegment ⟨[⟨0, 10, "A"⟩, ⟨10, 20, "B"⟩], 1, -1⟩ 1).currentSegmentIndex
        = 1 :=
  have h := deleteSegment_active_spec ⟨[⟨0, 10, "A"⟩, ⟨10, 20, "B"⟩], 1, -1⟩ 1
    (by decide) (by decide) (by decide)
  ⟨by rw [h.1]; decide, h.2.2.1⟩

/-- C5 (code bug): in the current modular revision nothing between
`hydraManager.executeCode` and the `timeupdate` handler catches, so a throw
from segment code escapes the whole scheduling step and the stored active
index is not updated — the spec and the earlier monolithic revision (which
wraps `executeSegment` in try/catch and calls `showError`) say the error is
caught at the scheduler/sandbox boundary.  Concretely: one segment whose
code fails, stored index none, evaluated inside the segment. -/
theorem segment_error_escapes_scheduler :
    updateActiveSegmentE (fun _ => false) ⟨[⟨0, 5, "osc(bad).out()"⟩], -1, -1⟩ 0
      = .error "osc(bad).out()" := by
  rfl

/-- C8: export produces plain `{startTime, endTime, code}` records, and the
matching inverse rebuilds the segment list exactly; the round trip preserves
every field and the order, whatever the rest of the state is. -/
theorem import_export_roundtrip (m mPrior : SMState) :
    importSegments mPrior (exportSegments m)
      = { mPrior with segments := m.segments } := by
  simp only [importSegments, exportSegments, List.map_map]
  congr 1
  exact List.map_id m.segments

/-- C10: `updateSegment` and `deleteSegment` with an out-of-range index
(negative or past the end) return the state unchanged — no failure, no
mutation of the segment list or of any other field. -/
theorem update_delete_out_of_range_noop (m : SMState) (i : ℤ)
    (startTime endTime : ℚ) (code : String)
    (h : i < 0 ∨ (m.segments.length : ℤ) ≤ i) :
    updateSegment m i startTime endTime code = m ∧ deleteSegment m i = m := by
  unfold updateSegment deleteSegment
  rw [if_neg (by omega), if_neg (by omega)]
  exact ⟨rfl, rfl⟩

/-- Witness for C10 at a concrete state and the out-of-range indices 5. -/
theorem update_delete_out_of_range_noop_witness :
    updateSegment ⟨[⟨0, 1, "A"⟩], -1, -1⟩ 5 2 3 "c" = ⟨[⟨0, 1, "A"⟩], -1, -1⟩
    ∧ deleteSegment ⟨[⟨0, 1, "A"⟩], -1, -1⟩ 5 = ⟨[⟨0, 1, "A"⟩], -1, -1⟩ :=
  update_delete_out_of_range_noop ⟨[⟨0, 1, "A"⟩], -1, -1⟩ 5 2 3 "c"
    (Or.inr (by decide))

/-- C6 counterexample: the claim says any non-finite bound is rejected, but
`validateSegmentTimes` only tests `isNaN`, so an end time of +Infinity with
a finite nonnegative start passes every check and the segment is appended:
no ValidationError occurs although the end value is not finite. -/
theorem addSegmentChecked_counterexample :
    addSegmentChecked [] (.fin 0) .inf "osc().out()"
        = .ok [⟨.fin 0, .inf, "osc().out()"⟩]
    ∧ isFiniteNum .inf = false :=
  ⟨rfl, rfl⟩

/-- C6 amended: the validated add fails (with the validation message,
before any mutation — the input list is returned untouched inside no
constructor on the error path) exactly when start or end is NaN, or
`start >= end`, or `start < 0`, all read with JavaScript comparison
semantics; in every other case, +Infinity bounds included, the segment is
appended at the end of the list, with no sorting. -/
theorem addSegmentChecked_spec (segs : List SegmentJ) (s e : JSNum)
    (c : String) :
    ((isNaNum s || isNaNum e || jsGe s e || jsLt s (.fin 0)) = true →
        ∃ msg, addSegmentChecked segs s e c = .error msg)
    ∧ ((isNaNum s || isNaNum e || jsGe s e || jsLt s (.fin 0)) = false →
        addSegmentChecked segs s e c = .ok (segs ++ [⟨s, e, c⟩])) := by
  have hv : (validateSegmentTimes s e).valid
      = !(isNaNum s || isNaNum e || jsGe s e || jsLt s (.fin 0)) := by
    unfold validateSegmentTimes
    split_ifs with h1 h2 h3
    · rcases Bool.or_eq_true_iff.mp h1 with h | h <;> simp [h]
    · simp [h2]
    · simp [h3]
    · simp only [Bool.or_eq_true, not_or, Bool.not_eq_true] at h1
      have h2f : jsGe s e = false := by simpa using h2
      have h3f : jsLt s (.fin 0) = false := by simpa using h3
      simp [h1.1, h1.2, h2f, h3f]
  refine ⟨fun htrue => ⟨(validateSegmentTimes s e).message, ?_⟩,
    fun hfalse => ?_⟩
  · simp [addSegmentChecked, hv, htrue]
  · simp [addSegmentChecked, hv, hfalse]

/-- Witness for C6 amended: start 5 before end 3 is rejected, the ordinary
pair (0, 5) is appended. -/
theorem addSegmentChecked_spec_witness :
    (∃ msg, addSegmentChecked [] (.fin 5) (.fin 3) "c" = .error msg)
    ∧ addSegmentChecked [] (.fin 0) (.fin 5) "c" = .ok [⟨.fin 0, .fin 5, "c"⟩] :=
  ⟨(addSegmentChecked_spec [] (.fin 5) (.fin 3) "c").1 (by decide),
   (addSegmentChecked_spec [] (.fin 0) (.fin 5) "c").2 (by decide)⟩

lemma clampOffset_inv (v : ViewportState) (h1 : 1 ≤ v.zoom)
    (h2 : v.zoom ≤ 20) : ViewportInv (clampOffset v) := by
  have hz : (0 : ℚ) < v.zoom := lt_of_lt_of_le one_pos h1
  have hb : (0 : ℚ) ≤ 1 - 1 / v.zoom := by
    have h3 : 1 / v.zoom ≤ 1 := by rw [div_le_one hz]; exact h1
    linarith
  simp only [ViewportInv, clampOffset]
  exact ⟨h1, h2, le_max_left _ _, max_le hb (min_le_right _ _)⟩
lemma zoomIn_inv (v : ViewportState) (h1 : 1 ≤ v.zoom) (_h2 : v.zoom ≤ 20) :
    ViewportInv (zoomIn v) := by
  simp only [zoomIn]
  refine clampOffset_inv _ (le_min (by nlinarith) (by norm_num))
    (min_le_right _ _)
lemma zoomOut_inv (v : ViewportState) (_h1 : 1 ≤ v.zoom) (h2 : v.zoom ≤ 20) :
    ViewportInv (zoomOut v) := by
  simp only [zoomOut]
  refine clampOffset_inv _ (le_max_right _ _) (max_le ?_ (by norm_num))
  have hdiv : v.zoom / (6 / 5) = v.zoom * (5 / 6) := by ring
  rw [hdiv]; nlinarith
lemma pan_inv (v : ViewportState) (d w : ℚ) (h1 : 1 ≤ v.zoom)
    (h2 : v.zoom ≤ 20) : ViewportInv (pan v d w) := by
  simp only [pan]
  exact clampOffset_inv _ h1 h2
lemma handleWheel_inv (v : ViewportState) (e : WheelEvent) (w : ℚ)
    (h : ViewportInv v) : ViewportInv (handleWheel v e w) := by
  obtain ⟨h1, h2, h3, h4⟩ := h
  simp only [handleWheel]
  split_ifs
  · exact ⟨h1, h2, h3, h4⟩
  · exact ⟨h1, h2, h3, h4⟩
  · exact clampOffset_inv _ (le_max_left _ _)
      (max_le (by norm_num) (min_le_right _ _))
  · exact clampOffset_inv _ (le_max_left _ _)
      (max_le (by norm_num) (min_le_right _ _))
  · exact clampOffset_inv _ (le_max_left _ _)
      (max_le (by norm_num) (min_le_right _ _))
  · exact clampOffset_inv _ (le_max_left _ _)
      (max_le (by norm_num) (min_le_right _ _))
  · exact clampOffset_inv _ h1 h2
lemma applyMutation_inv (v : ViewportState) (μ : ViewportMutation)
    (h : ViewportInv v) : ViewportInv (applyMutation v μ) := by
  cases μ with
  | zoomInM => exact zoomIn_inv v h.1 h.2.1
  | zoomOutM => exact zoomOut_inv v h.1 h.2.1
  | panM d w => exact pan_inv v d w h.1 h.2.1
  | wheelM e w => exact handleWheel_inv v e w h
  | resetM =>
    show ViewportInv ⟨1, 0, 1⟩
    exact ⟨le_refl _, by norm_num, le_refl _, by norm_num⟩
lemma applyMutations_inv (ms : List ViewportMutation) (v : ViewportState)
    (h : ViewportInv v) : ViewportInv (applyMutations v ms) := by
  induction ms generalizing v with
  | nil => exact h
  | cons μ rest ih =>
    simp only [applyMutations, List.foldl]
    exact ih _ (applyMutation_inv v μ h)

/-- C7: starting from the constructor state, after any sequence of public
viewport mutations (zoom in, zoom out, pan, wheel zoom and pan, reset) the
viewport satisfies `1 ≤ zoom ≤ 20` and `0 ≤ offset ≤ 1 - 1/zoom`, hence
`offset + 1/zoom ≤ 1`; out-of-range intermediate values are clamped back,
never rejected. -/
theorem viewport_invariant (ms : List ViewportMutation) :
    ViewportInv (applyMutations initViewport ms)
    ∧ (applyMutations initViewport ms).offset
        + 1 / (applyMutations initViewport ms).zoom ≤ 1 := by
  have h : ViewportInv (applyMutations initViewport ms) :=
    applyMutations_inv ms initViewport (by norm_num [ViewportInv, initViewport])
  obtain ⟨h1, h2, h3, h4⟩ := h
  exact ⟨⟨h1, h2, h3, h4⟩, by linarith⟩

lemma bandSum_eq_take_drop (data : List ℕ) : ∀ a n : ℕ,
    a + n ≤ data.length → bandSum data a n = ((data.drop a).take n).sum := by
  intro a n
  induction n with
  | zero => intro h; simp [bandSum]
  | succ n ih =>
    intro h
    have hle : a + n ≤ data.length := by omega
    rw [bandSum, ih hle]
    have hx : a + n < data.length := by omega
    rw [List.take_succ, List.sum_append]
    congr 1
    rw [List.getElem?_drop, List.getElem?_eq_getElem hx,
      List.getD_eq_getElem?_getD, List.getElem?_eq_getElem hx]
    simp
lemma band_range_le (data : List ℕ) (i : ℕ) (hi : i < 4) :
    i * (data.length / 4) + data.length / 4 ≤ data.length :=
  calc i * (data.length / 4) + data.length / 4
      = (i + 1) * (data.length / 4) := by ring
    _ ≤ 4 * (data.length / 4) := Nat.mul_le_mul_right _ (by omega)
    _ = data.length / 4 * 4 := by ring
    _ ≤ data.length := Nat.div_mul_le_self _ _

/-- C9: each analysis refresh sets the four reactive band values by
splitting the magnitude array into 4 contiguous bands of width
`floor(length / 4)` from low to high frequency (remainder bins unused),
taking the arithmetic mean of each band and dividing by 255; each written
value lies in `[0, 1]` and the list is in low-to-high band order. -/
theorem updateAudioAnalysis_bands_spec (sig : ReactiveSignal)
    (data : List ℕ) (ct : ℚ) (hlen : 4 ≤ data.length)
    (hbound : ∀ x ∈ data, x ≤ 255) :
    (updateAudioAnalysis sig data ct).fft
        = (List.range 4).map (fun i =>
            (((data.drop (i * (data.length / 4))).take (data.length / 4)).sum : ℚ)
              / ((data.length / 4 : ℕ) : ℚ) / 255)
    ∧ (updateAudioAnalysis sig data ct).fft.length = 4
    ∧ ∀ v ∈ (updateAudioAnalysis sig data ct).fft, 0 ≤ v ∧ v ≤ 1 := by
  have hfft : (updateAudioAnalysis sig data ct).fft = computeBands data := rfl
  have hspb1 : 1 ≤ data.length / 4 := (Nat.one_le_div_iff (by norm_num)).mpr hlen
  have hsum_le : ∀ i : ℕ, i < 4 →
      bandSum data (i * (data.length / 4)) (data.length / 4)
        ≤ data.length / 4 * 255 := by
    intro i hi
    rw [bandSum_eq_take_drop data _ _ (band_range_le data i hi)]
    have hmem : ∀ x ∈ (data.drop (i * (data.length / 4))).take (data.length / 4),
        x ≤ 255 := fun x hx =>
      hbound x (List.drop_subset _ _ (List.take_subset _ _ hx))
    have hslice : ((data.drop (i * (data.length / 4))).take
        (data.length / 4)).length = data.length / 4 := by
      have hb := band_range_le data i hi
      rw [List.length_take, List.length_drop]
      omega
    calc ((data.drop (i * (data.length / 4))).take (data.length / 4)).sum
        ≤ ((data.drop (i * (data.length / 4))).take (data.length / 4)).length
            * 255 := by
          have hs := List.sum_le_card_nsmul
            ((data.drop (i * (data.length / 4))).take (data.length / 4)) 255 hmem
          simpa [smul_eq_mul] using hs
      _ = data.length / 4 * 255 := by rw [hslice]
  refine ⟨?_, by simp [hfft, computeBands], ?_⟩
  · rw [hfft]
    simp only [computeBands]
    refine List.map_congr_left ?_
    intro i hi
    rw [List.mem_range] at hi
    rw [bandSum_eq_take_drop data _ _ (band_range_le data i hi)]
  · intro v hv
    rw [hfft] at hv
    simp only [computeBands, List.mem_map, List.mem_range] at hv
    obtain ⟨i, hi, hv⟩ := hv
    subst hv
    have hQ : (0 : ℚ) < ((data.length / 4 : ℕ) : ℚ) := by
      exact_mod_cast Nat.lt_of_lt_of_le Nat.zero_lt_one hspb1
    constructor
    · positivity
    · rw [div_le_one (by norm_num : (0 : ℚ) < 255), div_le_iff₀ hQ]
      have h255 := hsum_le i hi
      have hcast : ((bandSum data (i * (data.length / 4))
          (data.length / 4) : ℕ) : ℚ)
            ≤ ((data.length / 4 * 255 : ℕ) : ℚ) := by exact_mod_cast h255
      push_cast at hcast ⊢
      linarith

/-- Witness for C9 at a concrete 4-bin array. -/
theorem updateAudioAnalysis_bands_spec_witness :
    (updateAudioAnalysis ⟨[0, 0, 0, 0], 0⟩ [255, 255, 0, 0] 0).fft.length = 4
    ∧ ∀ v ∈ (updateAudioAnalysis ⟨[0, 0, 0, 0], 0⟩ [255, 255, 0, 0] 0).fft,
        0 ≤ v ∧ v ≤ 1 :=
  ⟨(updateAudioAnalysis_bands_spec ⟨[0, 0, 0, 0], 0⟩ [255, 255, 0, 0] 0
      (by norm_num) (by decide)).2.1,
   (updateAudioAnalysis_bands_spec ⟨[0, 0, 0, 0], 0⟩ [255, 255, 0, 0] 0
      (by norm_num) (by decide)).2.2⟩

end VideoEditor
